import Mathlib

/-!
Shallow embedding of the resume-PDF layout-reconstruction engine
(`src/index.js`). JS strings are modelled as `List Char`, JS numbers
(coordinates / indices) as `Int`.  The in-place mutation performed by
`Array.prototype.sort` inside `formatLineWithSpacing` is modelled by
returning the post-call array content alongside the string result.
Console output is modelled as the list of strings passed to
`console.log` (a call with no argument logs the empty string); terminal
styling (chalk) is modelled by the exact ANSI escape sequences chalk
emits.
-/

namespace Resume

/-- JS strings, modelled as lists of characters. -/
abbrev Str := List Char

/-- The whitespace class used by JS `String.prototype.trim` and by the
regex class `\s`, restricted to the ASCII range occurring in this data. -/
def jsIsWS (c : Char) : Bool :=
  c = ' ' || c = '\t' || c = '\n' || c = '\r' || c = '\x0b' || c = '\x0c'

/-- JS `String.prototype.trim`: drop whitespace from both ends. -/
def jsTrim (s : Str) : Str :=
  (((s.dropWhile jsIsWS).reverse).dropWhile jsIsWS).reverse

/-- JS `String.prototype.toLowerCase` (ASCII). -/
def jsToLower (s : Str) : Str := s.map Char.toLower

/-- JS `String.prototype.toUpperCase` (ASCII). -/
def jsToUpper (s : Str) : Str := s.map Char.toUpper

/-- JS `String.prototype.startsWith`. -/
def jsStartsWith (s pre : Str) : Bool := pre.isPrefixOf s

/-- JS `String.prototype.includes`: substring containment. -/
def containsSub (hay needle : Str) : Bool :=
  hay.tails.any (fun t => needle.isPrefixOf t)

/-- JS `Array.prototype.join(" ")`. -/
def joinSpace : List Str → Str
  | [] => []
  | [s] => s
  | s :: rest => s ++ ' ' :: joinSpace rest

/-- First occurrence replacement, the semantics of JS
`String.prototype.replace` with a string pattern. -/
def replaceFirst (hay needle repl : Str) : Str :=
  match hay with
  | [] => []
  | c :: rest =>
    if needle.isPrefixOf (c :: rest) then repl ++ (c :: rest).drop needle.length
    else c :: replaceFirst rest needle repl

/-- Splitting a logged string at newlines gives the printed terminal
lines (`console.log` of a string containing a newline prints several
lines). -/
def splitNl : Str → List Str
  | [] => [[]]
  | c :: rest =>
    if c = '\n' then [] :: splitNl rest
    else
      match splitNl rest with
      | [] => [[c]]
      | r :: rs => (c :: r) :: rs

/-- The terminal lines produced by a sequence of `console.log` calls. -/
def renderLines (out : List Str) : List Str := (out.map splitNl).flatten

/-- ANSI escape wrapper, the shape of every chalk styling function. -/
def ansiWrap (o c : String) (s : Str) : Str := (o).toList ++ s ++ (c).toList

/-- `chalk.bold`. -/
def chalkBold (s : Str) : Str := ansiWrap ("\x1b[1m") ("\x1b[22m") s

/-- `chalk.gray`. -/
def chalkGray (s : Str) : Str := ansiWrap ("\x1b[90m") ("\x1b[39m") s

/-- `chalk.gray.italic`. -/
def chalkGrayItalic (s : Str) : Str :=
  ansiWrap ("\x1b[90m\x1b[3m") ("\x1b[23m\x1b[39m") s

/-- `chalk.yellow.bold.underline`. -/
def chalkYellowBoldUnderline (s : Str) : Str :=
  ansiWrap ("\x1b[33m\x1b[1m\x1b[4m") ("\x1b[24m\x1b[22m\x1b[39m") s

/-- `chalk.cyan.bold.underline`. -/
def chalkCyanBoldUnderline (s : Str) : Str :=
  ansiWrap ("\x1b[36m\x1b[1m\x1b[4m") ("\x1b[24m\x1b[22m\x1b[39m") s

/-- `chalk.magenta.bold`. -/
def chalkMagentaBold (s : Str) : Str :=
  ansiWrap ("\x1b[35m\x1b[1m") ("\x1b[22m\x1b[39m") s

/-- `chalk.white`. -/
def chalkWhite (s : Str) : Str := ansiWrap ("\x1b[37m") ("\x1b[39m") s

/-- `chalk.blue.underline`. -/
def chalkBlueUnderline (s : Str) : Str :=
  ansiWrap ("\x1b[34m\x1b[4m") ("\x1b[24m\x1b[39m") s

/-- `makeHyperlink` (src/index.js line 77): OSC 8 hyperlink escape. -/
def makeHyperlink (text url : Str) : Str :=
  ("\x1b]8;;").toList ++ url ++ '\x07' :: text ++ ("\x1b]8;;").toList ++ ['\x07']

/-- `isBold` (line 25): `/Bold|Medium|Semibold|Heavy/i.test(fontName)`. -/
def isBold (fontName : Str) : Bool :=
  let l := jsToLower fontName
  containsSub l (("bold").toList) || containsSub l (("medium").toList) ||
    containsSub l (("semibold").toList) || containsSub l (("heavy").toList)

/-- The fixed section-header keywords (line 28). -/
def sectionKeywords : List Str :=
  [("education").toList, ("experience").toList, ("projects").toList,
   ("skills").toList, ("certifications").toList]

/-- `isSectionHeader` (line 27). -/
def isSectionHeader (text : Str) : Bool :=
  sectionKeywords.any (fun w => jsStartsWith (jsToLower text) w)

/-- Character class of the project-title regex `[A-Z0-9\s\-():]`. -/
def isTitleChar (c : Char) : Bool :=
  ('A' ≤ c && c ≤ 'Z') || ('0' ≤ c && c ≤ '9') || jsIsWS c ||
    c = '-' || c = '(' || c = ')' || c = ':'

/-- `isProjectTitle` (line 32): `text.match(/^[A-Z0-9\s\-():]+$/) && text.length > 5`. -/
def isProjectTitle (text : Str) : Bool :=
  (!text.isEmpty && text.all isTitleChar) && decide (text.length > 5)

/-- `isGithubLink` (line 35). -/
def isGithubLink (text : Str) : Bool := containsSub text (("github.com").toList)

/-- Character class of the tech-stack regex `[A-Za-z,\s]` (line 198). -/
def isTechChar (c : Char) : Bool :=
  ('A' ≤ c && c ≤ 'Z') || ('a' ≤ c && c ≤ 'z') || c = ',' || jsIsWS c

/-- The inline tech-stack test `/^[A-Za-z,\s]+$/.test(rawLine)` (line 198). -/
def isTechStack (text : Str) : Bool := !text.isEmpty && text.all isTechChar

/-- `skillCategories` (line 37). -/
def skillCategories : List Str :=
  [("Programming Languages:").toList, ("Frameworks/Libraries:").toList,
   ("Tools:").toList, ("Cloud/DevOps:").toList,
   ("Technological Concepts:").toList, ("Soft Skills:").toList]

/-- `highlightSkillKey` (line 46): restyle the first matching category
label in place. -/
def highlightSkillKey (line : Str) : Str :=
  match skillCategories.find? (fun key => containsSub line key) with
  | some key =>
      replaceFirst line key
        (chalkMagentaBold (replaceFirst key ((":").toList) []) ++
          chalkWhite ((":").toList))
  | none => line

/-- A positioned text fragment after ingestion (the object pushed at
line 117): `str` is the display text (hyperlink-styled when linked),
`raw` the trimmed plain text. -/
structure Token where
  str : Str
  raw : Str
  x : Int
  y : Int
  fontName : Str
deriving DecidableEq

/-- A raw page fragment from the content-extraction API:
`x = transform[4]`, `y = transform[5]`. -/
structure RawItem where
  str : Str
  transform4 : Int
  transform5 : Int
  fontName : Str
deriving DecidableEq

/-- A usable link annotation (line 91): `rect = [x1, y1, x2, y2]` plus a URL. -/
structure LinkAnn where
  url : Str
  x1 : Int
  y1 : Int
  x2 : Int
  y2 : Int
deriving DecidableEq

/-- The containment test of line 114:
`x >= x1 && x <= x2 && y >= y1 && y <= y2`. -/
def rectContains (a : LinkAnn) (x y : Int) : Bool :=
  decide (a.x1 ≤ x) && decide (x ≤ a.x2) && decide (a.y1 ≤ y) && decide (y ≤ a.y2)

/-- `links.find(...)` (line 112): first annotation whose rect contains
the token's origin. -/
def findLink (links : List LinkAnn) (x y : Int) : Option LinkAnn :=
  links.find? (fun a => rectContains a x y)

def itemY (it : RawItem) : Int := it.transform5

/-- Token construction (lines 112-123): trim the text and attach the
first matching link's URL as a styled hyperlink. -/
def mkToken (links : List LinkAnn) (item : RawItem) : Token :=
  let str := jsTrim item.str
  match findLink links item.transform4 item.transform5 with
  | some a =>
      ⟨makeHyperlink (chalkBlueUnderline str) a.url, str,
        item.transform4, item.transform5, item.fontName⟩
  | none => ⟨str, str, item.transform4, item.transform5, item.fontName⟩

/-- The row-boundary test of line 107:
`lastY === null || Math.abs(y - lastY) > 5`. -/
def isNewRow (lastY : Option Int) (y : Int) : Bool :=
  match lastY with
  | none => true
  | some ly => decide ((y - ly).natAbs > 5)

/-- The line-grouping loop of lines 96-128, in accumulator-passing form:
`lines` are the completed lines, `cur` the open buffer, `lastY` the last
accepted y (initially unset). -/
def buildLinesGo (links : List LinkAnn) :
    List (List Token) → List Token → Option Int → List RawItem → List (List Token)
  | lines, cur, _, [] => if cur.isEmpty then lines else lines ++ [cur]
  | lines, cur, lastY, item :: rest =>
    let str := jsTrim item.str
    if str.isEmpty then buildLinesGo links lines cur lastY rest
    else
      let y := itemY item
      if isNewRow lastY y then
        buildLinesGo links (if cur.isEmpty then lines else lines ++ [cur])
          [mkToken links item] (some y) rest
      else
        buildLinesGo links lines (cur ++ [mkToken links item]) (some y) rest

/-- `buildLines` assembles a page's Lines from its raw fragments
(lines 95-128). -/
def buildLines (links : List LinkAnn) (items : List RawItem) : List (List Token) :=
  buildLinesGo links [] [] none items

/-- The x-ordering used by `lineItems.sort((a, b) => a.x - b.x)`. -/
def tokLE (a b : Token) : Prop := a.x ≤ b.x

instance : DecidableRel tokLE := fun a b => Int.decLe a.x b.x

instance : IsTotal Token tokLE := ⟨fun a b => Int.le_total a.x b.x⟩

instance : IsTrans Token tokLE := ⟨fun _ _ _ h1 h2 => le_trans h1 h2⟩

/-- The stable ascending-x sort performed by
`lineItems.sort((a, b) => a.x - b.x)` (line 59). -/
def sortByX (l : List Token) : List Token := List.insertionSort tokLE l

/-- The separator chosen for a horizontal gap (lines 64-66). -/
def sepFor (gap : Int) : Str :=
  if 10 < gap then ['\t'] else if 5 < gap then [' '] else []

/-- The accumulation loop of `formatLineWithSpacing` (lines 60-71);
the state is the output string and `lastX`. -/
def fmtStep (acc : Str × Int) (item : Token) : Str × Int :=
  let gap := item.x - acc.2
  let text := if isBold item.fontName then chalkBold item.str else item.str
  (acc.1 ++ sepFor gap ++ text, item.x + (item.str.length : Int) * 5)

/-- `formatLineWithSpacing` (line 58).  JS `Array.prototype.sort`
mutates the array in place, so the function both yields the formatted
string and leaves the line's token array in sorted order; the pair
returns the string and the post-call array content. -/
def formatLineWithSpacingFull (lineItems : List Token) : Str × List Token :=
  let sorted := sortByX lineItems
  (jsTrim (sorted.foldl fmtStep ([], 0)).1, sorted)

/-- The string result of `formatLineWithSpacing`. -/
def formatLineWithSpacing (lineItems : List Token) : Str :=
  (formatLineWithSpacingFull lineItems).1

/-- `rawLine` (line 138): space-joined raw token texts, trimmed. -/
def rawText (lineItems : List Token) : Str :=
  jsTrim (joinSpace (lineItems.map Token.raw))

/-- The classifier state declared at lines 130-134 (inside the page
loop): three section flags, the index of the last emitted project
title, and the education pairing buffer. -/
structure CState where
  inProjects : Bool
  inExperience : Bool
  inEducation : Bool
  lastProjectIndex : Int
  eduBuffer : List Str
deriving DecidableEq

/-- The initial classifier state of every page (lines 130-134). -/
def CState.init : CState := ⟨false, false, false, -2, []⟩

/-- The education pair emission of lines 158-163:
`chalk.bold(e0.trim()) + "\n" + chalk.gray("\t" + e1.trim()) + "\n"`. -/
def eduPair (a b : Str) : Str :=
  chalkBold (jsTrim a) ++ '\n' :: chalkGray ('\t' :: jsTrim b) ++ ['\n']

/-- `lineItems[0]?.fontName || ""` as read at line 172, after the
in-place sort performed by the `formatLineWithSpacing` call of
line 139 has reordered the array. -/
def headFontName (lineItems : List Token) : Str :=
  match (sortByX lineItems).head? with
  | some t => t.fontName
  | none => []

/-- The lookahead of lines 218-221: after a generic Projects-section
line, emit a blank separator when the next line is a project title. -/
def lookaheadExtra (inProj : Bool) (next? : Option (List Token)) : List Str :=
  if inProj then
    match next? with
    | some nl => if isProjectTitle (rawText nl) then [[]] else []
    | none => []
  else []

/-- One iteration of the classifier loop (lines 136-221) on the line at
index `i`; `next?` is the lookahead line `lines[i+1]` when it exists.
Returns the updated state and the strings logged (a bare `console.log()`
logs the empty string).  Reads of `lineItems` made after the
`formatLineWithSpacing` call observe the array sorted in place, hence
the `sortByX` in the experience-title test of line 172. -/
def classifyStep (st : CState) (i : Int) (lineItems : List Token)
    (next? : Option (List Token)) : CState × List Str :=
  let rawLine := rawText lineItems
  let formattedLine := formatLineWithSpacing lineItems
  if rawLine.isEmpty then (st, [])
  else if isSectionHeader rawLine then
    ({ inProjects := containsSub (jsToLower rawLine) (("project").toList),
       inExperience := containsSub (jsToLower rawLine) (("experience").toList),
       inEducation := containsSub (jsToLower rawLine) (("education").toList),
       lastProjectIndex := st.lastProjectIndex,
       eduBuffer := [] },
     ['\n' :: chalkYellowBoldUnderline (jsToUpper rawLine)])
  else if st.inEducation then
    let buf := st.eduBuffer ++ [formattedLine]
    if buf.length == 2 then
      ({ st with eduBuffer := [] }, [eduPair (buf.getD 0 []) (buf.getD 1 [])])
    else ({ st with eduBuffer := buf }, [])
  else if st.inExperience then
    if isBold (headFontName lineItems) && lineItems.length == 1 &&
        decide (rawLine.length < 40) then
      (st, ['\n' :: chalkCyanBoldUnderline rawLine])
    else (st, [formattedLine])
  else if st.inProjects && isProjectTitle rawLine &&
      decide (i - st.lastProjectIndex > 1) then
    ({ st with lastProjectIndex := i }, [[], chalkCyanBoldUnderline formattedLine])
  else if st.inProjects && isGithubLink rawLine then (st, [formattedLine])
  else if st.inProjects && isTechStack rawLine && decide (rawLine.length < 100) then
    (st, [chalkGrayItalic formattedLine])
  else if !st.inProjects && skillCategories.any (fun k => containsSub rawLine k) then
    (st, [highlightSkillKey formattedLine])
  else if containsSub (jsToLower rawLine) (("verify").toList) then (st, [formattedLine])
  else (st, formattedLine :: lookaheadExtra st.inProjects next?)

/-- The classifier loop from line index `i` onward, threading the state
and concatenating the logged strings. -/
def classifyFrom (st : CState) (i : Int) : List (List Token) → CState × List Str
  | [] => (st, [])
  | l :: rest =>
    let r := classifyStep st i l rest.head?
    let r2 := classifyFrom r.1 (i + 1) rest
    (r2.1, r.2 ++ r2.2)

/-- The classifier states observed before each line and after the last
one. -/
def classifyStates (st : CState) (i : Int) : List (List Token) → List CState
  | [] => [st]
  | l :: rest =>
    st :: classifyStates (classifyStep st i l rest.head?).1 (i + 1) rest

/-- The input of one page: its raw fragments and its usable link
annotations. -/
structure PageInput where
  items : List RawItem
  links : List LinkAnn

/-- Processing of one page (lines 86-222): group lines, then classify
from the freshly initialized state. -/
def processPageFull (p : PageInput) : CState × List Str :=
  classifyFrom CState.init 0 (buildLines p.links p.items)

/-- The strings a page's processing logs. -/
def processPage (p : PageInput) : List Str := (processPageFull p).2

/-- `extractFormattedText` on a whole document: pages processed in
order; the classifier state is re-declared inside the page loop
(lines 130-134), so every page starts from `CState.init`. -/
def extractFormattedText (pages : List PageInput) : List Str :=
  (pages.map processPage).flatten

/-- The classifier state at the start and at the end of each page's
processing: the start state of every page is the freshly initialized
one of lines 130-134. -/
def pageStates (pages : List PageInput) : List (CState × CState) :=
  pages.map (fun p => (CState.init, (processPageFull p).1))

/-! ### Specification-side definitions

The following definitions transcribe the wording of the specification's
claims; the claim theorems compare them with the source-side
definitions above. -/

/-- Spec wording of the formatter walk: from `lastX`, insert the gap
separator, append the (bold-styled when the font matches) text, advance
`lastX` by `x + 5·len`. -/
def formatWalk : Int → List Token → Str
  | _, [] => []
  | lastX, t :: ts =>
    sepFor (t.x - lastX) ++ (if isBold t.fontName then chalkBold t.str else t.str) ++
      formatWalk (t.x + (t.str.length : Int) * 5) ts

/-- Spec wording of education pairing: consecutive formatted lines are
consumed two at a time, each pair emitted as one bold-title /
muted-subtitle log. -/
def eduPairs : List Str → List Str
  | a :: b :: rest => eduPair a b :: eduPairs rest
  | _ => []

/-- The formatted line left unemitted in the buffer after pairing: the
odd trailing entry, if any. -/
def eduLeftover : List Str → List Str
  | _ :: _ :: rest => eduLeftover rest
  | [a] => [a]
  | [] => []

/-- All consecutive y-differences from `ly` along the run stay within
the 5-unit threshold. -/
def chainB (ly : Int) : List RawItem → Bool
  | [] => true
  | it :: rest => decide ((itemY it - ly).natAbs ≤ 5) && chainB (itemY it) rest

/-- A run is internally chained: every consecutive y-difference is
within the threshold. -/
def innerChainB : List RawItem → Bool
  | [] => true
  | a :: t => chainB (itemY a) t

/-- The y of the last item of the run, or `ly` for the empty run. -/
def endY (ly : Int) : List RawItem → Int
  | [] => ly
  | a :: t => endY (itemY a) t

/-- Consecutive runs are separated: the first item of each run differs
from the previous run's last y by more than the threshold. -/
def runsSepB : List (List RawItem) → Bool
  | r1 :: r2 :: rest =>
    (match r1.getLast?, r2.head? with
     | some a, some b => decide ((itemY b - itemY a).natAbs > 5)
     | _, _ => true) && runsSepB (r2 :: rest)
  | _ => true

/-- Separation of a run list from a preceding y value `ly`, chaining
through each run's end y. -/
def sepFromB (ly : Int) : List (List RawItem) → Bool
  | [] => true
  | r :: rest =>
    (match r.head? with
     | some b => decide ((itemY b - ly).natAbs > 5)
     | none => true) && sepFromB (endY ly r) rest

/-- Count of section flags simultaneously active in a classifier state. -/
def flagCount (st : CState) : Nat :=
  (if st.inProjects then 1 else 0) + (if st.inExperience then 1 else 0) +
    (if st.inEducation then 1 else 0)

/-- Count of section-keyword substrings a raw line contains among the
three that drive the dedicated section flags (line 145-147). -/
def keywordCount (raw : Str) : Nat :=
  (if containsSub (jsToLower raw) (("project").toList) then 1 else 0) +
    (if containsSub (jsToLower raw) (("experience").toList) then 1 else 0) +
    (if containsSub (jsToLower raw) (("education").toList) then 1 else 0)

/-- Line `k` of a page was classified as a project title: the state
observed after it records `lastProjectIndex = k` (only the
project-title branch of line 184-188 writes that field). -/
def titleAtB (lines : List (List Token)) (k : Nat) : Bool :=
  match (classifyStates CState.init 0 lines).get? (k + 1) with
  | some s => s.lastProjectIndex == (k : Int)
  | none => false

/-! ### Concrete inputs used by witnesses and counterexamples -/

/-- A fragment with the given text, position and font. -/
def frag (s : String) (x y : Int) (f : String) : RawItem :=
  ⟨(s).toList, x, y, (f).toList⟩

/-- A one-fragment-per-line page with an EDUCATION header followed by
a dangling section body. -/
def eduPage : PageInput :=
  ⟨[frag ("EDUCATION") 0 100 (""), frag ("IIT Delhi") 0 80 ("Bold")], []⟩

/-- A second page, processed after `eduPage` in the two-page document. -/
def skillPage : PageInput :=
  ⟨[frag ("Some body text") 0 100 ("")], []⟩

/-- Two-page document for the cross-page state claim. -/
def twoPageDoc : List PageInput := [eduPage, skillPage]

/-- A page whose single line is a header containing two section
keywords. -/
def dualHeaderPage : PageInput :=
  ⟨[frag ("EDUCATION EXPERIENCE") 0 100 (""), frag ("body line") 0 80 ("")], []⟩

/-- Projects page with two consecutive title-pattern lines. -/
def projPage : PageInput :=
  ⟨[frag ("PROJECTS") 0 100 (""), frag ("AAAAAA") 0 80 (""),
    frag ("BBBBBB") 0 60 ("")], []⟩

/-- Experience page of spec scenario A: a header line then a single
bold short token. -/
def expPage : PageInput :=
  ⟨[frag ("EXPERIENCE") 0 100 (""), frag ("Senior Engineer") 0 80 ("Bold")], []⟩

/-- Education page with three body lines (odd trailing line). -/
def eduLines3 : List (List Token) :=
  [[⟨("IIT Delhi").toList, ("IIT Delhi").toList, 0, 80, ("Bold").toList⟩],
   [⟨("B.Tech CSE").toList, ("B.Tech CSE").toList, 0, 60, ("").toList⟩],
   [⟨("2019-2023").toList, ("2019-2023").toList, 0, 40, ("").toList⟩]]

/-- A classifier state inside an Education section with an empty
buffer. -/
def eduSt0 : CState := ⟨false, false, true, -2, []⟩

/-- A classifier state inside an Experience section. -/
def expSt0 : CState := ⟨false, true, false, -2, []⟩

/-- A single-token bold line, shorter than 40 characters. -/
def expLine : List Token :=
  [⟨("Senior Engineer").toList, ("Senior Engineer").toList, 0, 80, ("Bold").toList⟩]

/-- The first Line the grouper builds from `runsW`. -/
def lineW : List Token :=
  [mkToken [] (frag ("a") 0 0 ("")), mkToken [] (frag ("b") 30 3 (""))]

/-- A link annotation used by the overlay witness. -/
def demoA : LinkAnn := ⟨("https://a.example").toList, 0, 0, 10, 10⟩

/-- Two link annotations whose rects both contain the point (1, 1). -/
def demoLinks : List LinkAnn :=
  [demoA, ⟨("https://b.example").toList, 1, 1, 5, 5⟩]

/-- Two tokens listed in reverse x-order. -/
def tokA : Token := ⟨("world").toList, ("world").toList, 40, 0, ("").toList⟩

def tokB : Token := ⟨("hello").toList, ("hello").toList, 0, 0, ("Bold").toList⟩

/-- Run partition used by the grouping witness: two rows of y 0/3 and a
third row at y 20. -/
def runsW : List (List RawItem) :=
  [[frag ("a") 0 0 (""), frag ("b") 30 3 ("")], [frag ("c") 0 20 ("")]]

/-! ### Helper lemmas -/

theorem foldl_fmtStep (ts : List Token) (acc : Str) (x0 : Int) :
    (ts.foldl fmtStep (acc, x0)).1 = acc ++ formatWalk x0 ts := by
  induction ts generalizing acc x0 with
  | nil => simp [formatWalk]
  | cons t ts ih =>
    simp only [List.foldl_cons, formatWalk, fmtStep]
    rw [ih]
    simp [List.append_assoc]

theorem findLink_isSome_iff (links : List LinkAnn) (x y : Int) :
    (findLink links x y).isSome = true ↔ ∃ a ∈ links, rectContains a x y = true := by
  induction links with
  | nil => simp [findLink]
  | cons c rest ih =>
    cases hc : rectContains c x y with
    | true => simp [findLink, List.find?, hc]
    | false =>
      rw [findLink] at ih ⊢
      simp only [List.find?, hc]
      rw [ih]
      constructor
      · rintro ⟨a, ha, hra⟩
        exact ⟨a, List.mem_cons_of_mem _ ha, hra⟩
      · rintro ⟨a, ha, hra⟩
        rcases List.mem_cons.mp ha with h | h
        · rw [h] at hra
          rw [hra] at hc
          exact absurd hc (by simp)
        · exact ⟨a, h, hra⟩

theorem findLink_eq_some (links : List LinkAnn) (x y : Int) (a : LinkAnn)
    (h : findLink links x y = some a) :
    rectContains a x y = true ∧
      ∃ pre post, links = pre ++ a :: post ∧
        ∀ b ∈ pre, rectContains b x y = false := by
  induction links with
  | nil => simp [findLink] at h
  | cons c rest ih =>
    rw [findLink] at h ih
    simp only [List.find?] at h
    cases hc : rectContains c x y with
    | true =>
      rw [hc] at h
      obtain rfl : c = a := by injection h
      exact ⟨hc, [], rest, rfl, by simp⟩
    | false =>
      rw [hc] at h
      obtain ⟨hra, pre, post, hsplit, hpre⟩ := ih h
      refine ⟨hra, c :: pre, post, by rw [hsplit, List.cons_append], ?_⟩
      intro b hb
      rcases List.mem_cons.mp hb with rfl | hb
      · exact hc
      · exact hpre b hb

set_option maxHeartbeats 1000000 in
theorem classifyStep_eq (st : CState) (i : Int) (l : List Token)
    (n : Option (List Token)) :
    classifyStep st i l n =
      ((if (rawText l).isEmpty then st
        else if isSectionHeader (rawText l) then
          { inProjects := containsSub (jsToLower (rawText l)) (("project").toList),
            inExperience := containsSub (jsToLower (rawText l)) (("experience").toList),
            inEducation := containsSub (jsToLower (rawText l)) (("education").toList),
            lastProjectIndex := st.lastProjectIndex,
            eduBuffer := [] }
        else if st.inEducation then
          (if (st.eduBuffer ++ [formatLineWithSpacing l]).length == 2 then
            { st with eduBuffer := [] }
           else { st with eduBuffer := st.eduBuffer ++ [formatLineWithSpacing l] })
        else if st.inExperience then st
        else if st.inProjects && isProjectTitle (rawText l) &&
            decide (i - st.lastProjectIndex > 1) then
          { st with lastProjectIndex := i }
        else st),
       (if (rawText l).isEmpty then []
        else if isSectionHeader (rawText l) then
          ['\n' :: chalkYellowBoldUnderline (jsToUpper (rawText l))]
        else if st.inEducation then
          (if (st.eduBuffer ++ [formatLineWithSpacing l]).length == 2 then
            [eduPair ((st.eduBuffer ++ [formatLineWithSpacing l]).getD 0 [])
              ((st.eduBuffer ++ [formatLineWithSpacing l]).getD 1 [])]
           else [])
        else if st.inExperience then
          (if isBold (headFontName l) && l.length == 1 &&
              decide ((rawText l).length < 40) then
            ['\n' :: chalkCyanBoldUnderline (rawText l)]
           else [formatLineWithSpacing l])
        else if st.inProjects && isProjectTitle (rawText l) &&
            decide (i - st.lastProjectIndex > 1) then
          [[], chalkCyanBoldUnderline (formatLineWithSpacing l)]
        else if st.inProjects && isGithubLink (rawText l) then
          [formatLineWithSpacing l]
        else if st.inProjects && isTechStack (rawText l) &&
            decide ((rawText l).length < 100) then
          [chalkGrayItalic (formatLineWithSpacing l)]
        else if !st.inProjects &&
            skillCategories.any (fun k => containsSub (rawText l) k) then
          [highlightSkillKey (formatLineWithSpacing l)]
        else if containsSub (jsToLower (rawText l)) (("verify").toList) then
          [formatLineWithSpacing l]
        else formatLineWithSpacing l :: lookaheadExtra st.inProjects n)) := by
  unfold classifyStep
  dsimp only
  by_cases h1 : (rawText l).isEmpty = true
  · simp only [if_pos h1]
  · simp only [if_neg h1]
    by_cases h2 : isSectionHeader (rawText l) = true
    · simp only [if_pos h2]
    · simp only [if_neg h2]
      by_cases h3 : st.inEducation = true
      · simp only [if_pos h3]
        by_cases h4 : ((st.eduBuffer ++ [formatLineWithSpacing l]).length == 2) = true
        · simp only [if_pos h4]
        · simp only [if_neg h4]
      · simp only [if_neg h3]
        by_cases h5 : st.inExperience = true
        · simp only [if_pos h5]
          by_cases h6 : (isBold (headFontName l) && l.length == 1 &&
              decide ((rawText l).length < 40)) = true
          · simp only [if_pos h6]
          · simp only [if_neg h6]
        · simp only [if_neg h5]
          by_cases h7 : (st.inProjects && isProjectTitle (rawText l) &&
              decide (i - st.lastProjectIndex > 1)) = true
          · simp only [if_pos h7]
          · simp only [if_neg h7]
            by_cases h8 : (st.inProjects && isGithubLink (rawText l)) = true
            · simp only [if_pos h8]
            · simp only [if_neg h8]
              by_cases h9 : (st.inProjects && isTechStack (rawText l) &&
                  decide ((rawText l).length < 100)) = true
              · simp only [if_pos h9]
              · simp only [if_neg h9]
                by_cases h10 : (!st.inProjects &&
                    skillCategories.any (fun k => containsSub (rawText l) k)) = true
                · simp only [if_pos h10]
                · simp only [if_neg h10]
                  by_cases h11 :
                      containsSub (jsToLower (rawText l)) (("verify").toList) = true
                  · simp only [if_pos h11]
                  · simp only [if_neg h11]

theorem classifyStep_fst (st : CState) (i : Int) (l : List Token)
    (n : Option (List Token)) :
    (classifyStep st i l n).1 =
      if (rawText l).isEmpty then st
      else if isSectionHeader (rawText l) then
        { inProjects := containsSub (jsToLower (rawText l)) (("project").toList),
          inExperience := containsSub (jsToLower (rawText l)) (("experience").toList),
          inEducation := containsSub (jsToLower (rawText l)) (("education").toList),
          lastProjectIndex := st.lastProjectIndex,
          eduBuffer := [] }
      else if st.inEducation then
        (if (st.eduBuffer ++ [formatLineWithSpacing l]).length == 2 then
          { st with eduBuffer := [] }
         else { st with eduBuffer := st.eduBuffer ++ [formatLineWithSpacing l] })
      else if st.inExperience then st
      else if st.inProjects && isProjectTitle (rawText l) &&
          decide (i - st.lastProjectIndex > 1) then
        { st with lastProjectIndex := i }
      else st := by
  rw [classifyStep_eq]

theorem classifyStep_snd (st : CState) (i : Int) (l : List Token)
    (n : Option (List Token)) :
    (classifyStep st i l n).2 =
      if (rawText l).isEmpty then []
      else if isSectionHeader (rawText l) then
        ['\n' :: chalkYellowBoldUnderline (jsToUpper (rawText l))]
      else if st.inEducation then
        (if (st.eduBuffer ++ [formatLineWithSpacing l]).length == 2 then
          [eduPair ((st.eduBuffer ++ [formatLineWithSpacing l]).getD 0 [])
            ((st.eduBuffer ++ [formatLineWithSpacing l]).getD 1 [])]
         else [])
      else if st.inExperience then
        (if isBold (headFontName l) && l.length == 1 &&
            decide ((rawText l).length < 40) then
          ['\n' :: chalkCyanBoldUnderline (rawText l)]
         else [formatLineWithSpacing l])
      else if st.inProjects && isProjectTitle (rawText l) &&
          decide (i - st.lastProjectIndex > 1) then
        [[], chalkCyanBoldUnderline (formatLineWithSpacing l)]
      else if st.inProjects && isGithubLink (rawText l) then
        [formatLineWithSpacing l]
      else if st.inProjects && isTechStack (rawText l) &&
          decide ((rawText l).length < 100) then
        [chalkGrayItalic (formatLineWithSpacing l)]
      else if !st.inProjects &&
          skillCategories.any (fun k => containsSub (rawText l) k) then
        [highlightSkillKey (formatLineWithSpacing l)]
      else if containsSub (jsToLower (rawText l)) (("verify").toList) then
        [formatLineWithSpacing l]
      else formatLineWithSpacing l :: lookaheadExtra st.inProjects n := by
  rw [classifyStep_eq]

theorem flagCount_step (st : CState) (i : Int) (l : List Token)
    (n : Option (List Token)) :
    flagCount (classifyStep st i l n).1 =
      if (rawText l).isEmpty then flagCount st
      else if isSectionHeader (rawText l) then keywordCount (rawText l)
      else flagCount st := by
  rw [classifyStep_fst]
  split_ifs <;> simp [flagCount, keywordCount]

theorem flagCount_invariant (lines : List (List Token)) :
    ∀ (st : CState) (i : Int), flagCount st ≤ 1 →
      (∀ l ∈ lines, keywordCount (rawText l) ≤ 1) →
      ∀ s ∈ classifyStates st i lines, flagCount s ≤ 1 := by
  induction lines with
  | nil =>
    intro st i hst _ s hs
    simp only [classifyStates, List.mem_singleton] at hs
    rw [hs]
    exact hst
  | cons l rest ih =>
    intro st i hst hl s hs
    simp only [classifyStates, List.mem_cons] at hs
    rcases hs with rfl | hs
    · exact hst
    · refine ih _ (i + 1) ?_ (fun l' hl' => hl l' (List.mem_cons_of_mem _ hl')) s hs
      rw [flagCount_step]
      split_ifs
      · exact hst
      · exact hl l (List.mem_cons_self _ _)
      · exact hst

theorem cstate_eduBuffer_self (st : CState) :
    { st with eduBuffer := st.eduBuffer } = st := by
  cases st
  rfl

theorem edu_step_nil (st : CState) (i : Int) (l : List Token)
    (n : Option (List Token)) (he : (rawText l).isEmpty = false)
    (hh : isSectionHeader (rawText l) = false) (hedu : st.inEducation = true)
    (hb : st.eduBuffer = []) :
    classifyStep st i l n =
      ({ st with eduBuffer := [formatLineWithSpacing l] }, []) := by
  apply Prod.ext
  · rw [classifyStep_fst, if_neg (by simp [he]), if_neg (by simp [hh]),
      if_pos hedu, hb]
    rw [if_neg (by simp)]
    simp
  · rw [classifyStep_snd, if_neg (by simp [he]), if_neg (by simp [hh]),
      if_pos hedu, hb]
    rw [if_neg (by simp)]

theorem edu_step_cons (st : CState) (i : Int) (l : List Token)
    (n : Option (List Token)) (a : Str) (he : (rawText l).isEmpty = false)
    (hh : isSectionHeader (rawText l) = false) (hedu : st.inEducation = true)
    (hb : st.eduBuffer = [a]) :
    classifyStep st i l n =
      ({ st with eduBuffer := [] }, [eduPair a (formatLineWithSpacing l)]) := by
  apply Prod.ext
  · rw [classifyStep_fst, if_neg (by simp [he]), if_neg (by simp [hh]),
      if_pos hedu, hb]
    rw [if_pos (by simp)]
  · rw [classifyStep_snd, if_neg (by simp [he]), if_neg (by simp [hh]),
      if_pos hedu, hb]
    rw [if_pos (by simp)]
    simp

theorem eduRun (lines : List (List Token)) :
    ∀ (st : CState) (i : Int), st.inEducation = true → st.eduBuffer.length ≤ 1 →
      (∀ l ∈ lines, (rawText l).isEmpty = false ∧
        isSectionHeader (rawText l) = false) →
      ((classifyFrom st i lines).2 =
          eduPairs (st.eduBuffer ++ lines.map formatLineWithSpacing) ∧
        (classifyFrom st i lines).1 =
          { st with eduBuffer :=
              eduLeftover (st.eduBuffer ++ lines.map formatLineWithSpacing) } ∧
        ∀ s ∈ classifyStates st i lines, s.eduBuffer.length ≤ 1) := by
  induction lines with
  | nil =>
    intro st i hedu hb hl
    obtain ⟨p, e, d, lp, b⟩ := st
    rcases b with _ | ⟨a, _ | ⟨x, t⟩⟩
    · refine ⟨rfl, rfl, ?_⟩
      intro s hs
      simp only [classifyStates, List.mem_singleton] at hs
      subst hs
      simp
    · refine ⟨rfl, rfl, ?_⟩
      intro s hs
      simp only [classifyStates, List.mem_singleton] at hs
      subst hs
      simp
    · simp at hb
  | cons l rest ih =>
    intro st i hedu hb hl
    obtain ⟨hel, hhl⟩ := hl l (List.mem_cons_self _ _)
    have hlr := fun l' h => hl l' (List.mem_cons_of_mem _ h)
    rcases hbuf : st.eduBuffer with _ | ⟨a, rest2⟩
    · have hstep := edu_step_nil st i l rest.head? hel hhl hedu hbuf
      have ih' := ih { st with eduBuffer := [formatLineWithSpacing l] } (i + 1)
        hedu (by simp) hlr
      refine ⟨?_, ?_, ?_⟩
      · show (classifyFrom st i (l :: rest)).2 = _
        simp only [classifyFrom, hstep]
        rw [ih'.1]
        simp [hbuf]
      · show (classifyFrom st i (l :: rest)).1 = _
        simp only [classifyFrom, hstep]
        rw [ih'.2.1]
        simp [hbuf]
      · intro s hs
        simp only [classifyStates, hstep, List.mem_cons] at hs
        rcases hs with rfl | hs
        · exact hb
        · exact ih'.2.2 s hs
    · rcases rest2 with _ | ⟨b, t⟩
      · have hstep := edu_step_cons st i l rest.head? a hel hhl hedu hbuf
        have ih' := ih { st with eduBuffer := [] } (i + 1) hedu (by simp) hlr
        refine ⟨?_, ?_, ?_⟩
        · show (classifyFrom st i (l :: rest)).2 = _
          simp only [classifyFrom, hstep]
          rw [ih'.1]
          simp [hbuf, eduPairs]
        · show (classifyFrom st i (l :: rest)).1 = _
          simp only [classifyFrom, hstep]
          rw [ih'.2.1]
          simp [hbuf]
          rfl
        · intro s hs
          simp only [classifyStates, hstep, List.mem_cons] at hs
          rcases hs with rfl | hs
          · exact hb
          · exact ih'.2.2 s hs
      · rw [hbuf] at hb
        simp at hb

theorem eduPairs_length (fs : List Str) : (eduPairs fs).length = fs.length / 2 := by
  have H : ∀ (n : Nat) (gs : List Str), gs.length = n →
      (eduPairs gs).length = gs.length / 2 := by
    intro n
    induction n using Nat.strong_induction_on with
    | _ n ih =>
      intro gs hn
      match gs, hn with
      | [], _ => simp [eduPairs]
      | [a], _ => simp [eduPairs]
      | a :: b :: rest, hn =>
        simp only [List.length_cons] at hn
        have hr := ih rest.length (by omega) rest rfl
        simp only [eduPairs, List.length_cons, hr]
        omega
  exact H fs.length fs rfl

/-! ### Claim theorems -/

/-- Claim C1 is false on the code: the classifier state is re-declared
inside the page loop (lines 130-134), so for the two-page document
`twoPageDoc` the state at the start of page 2 (the initial state) is
not the state at the end of page 1 (which has `inEducation = true` and
a pending education buffer). -/
theorem c1_counterexample :
    ((pageStates twoPageDoc).get? 1).map Prod.fst ≠
      ((pageStates twoPageDoc).get? 0).map Prod.snd := by decide

/-- Claim C1 (amended): the classifier state does not persist across
page boundaries; every page's processing starts from the freshly
initialized state, and a document's output is the concatenation of its
pages' independent outputs. -/
theorem c1_pages_reset_state :
    (∀ pages : List PageInput, ∀ pr ∈ pageStates pages, pr.1 = CState.init) ∧
      (∀ (p : PageInput) (ps : List PageInput),
        extractFormattedText (p :: ps) = processPage p ++ extractFormattedText ps) := by
  constructor
  · intro pages pr hpr
    obtain ⟨p, _, h⟩ := List.mem_map.mp hpr
    rw [← h]
  · intro p ps
    simp [extractFormattedText]

theorem c1_witness : (CState.init, (processPageFull eduPage).1).1 = CState.init :=
  c1_pages_reset_state.1 twoPageDoc (CState.init, (processPageFull eduPage).1)
    (by decide)

/-- Claim C4: a Token is linked exactly when some annotation rect
contains its origin under the inclusive comparisons of line 114; the
first matching annotation in list order supplies the URL; the token's
display text is hyperlink-wrapped precisely in that case. -/
theorem c4_link_overlay (links : List LinkAnn) (x y : Int) :
    ((findLink links x y).isSome = true ↔ ∃ a ∈ links, rectContains a x y = true) ∧
      (∀ a : LinkAnn, findLink links x y = some a →
        rectContains a x y = true ∧
          ∃ pre post, links = pre ++ a :: post ∧
            ∀ b ∈ pre, rectContains b x y = false) ∧
      (∀ item : RawItem, (mkToken links item).str =
        (match findLink links item.transform4 item.transform5 with
         | some a => makeHyperlink (chalkBlueUnderline (jsTrim item.str)) a.url
         | none => jsTrim item.str)) ∧
      (∀ (a : LinkAnn) (u v : Int), rectContains a u v = true ↔
        (a.x1 ≤ u ∧ u ≤ a.x2 ∧ a.y1 ≤ v ∧ v ≤ a.y2)) := by
  refine ⟨findLink_isSome_iff links x y, fun a h => findLink_eq_some links x y a h,
    ?_, ?_⟩
  · intro item
    unfold mkToken
    cases hf : findLink links item.transform4 item.transform5 <;> simp [hf]
  · intro a u v
    simp [rectContains, and_assoc]

theorem c4_witness :
    (findLink demoLinks 1 1).isSome = true ∧ rectContains demoA 1 1 = true :=
  ⟨(c4_link_overlay demoLinks 1 1).1.mpr ⟨demoA, by decide, by decide⟩,
    ((c4_link_overlay demoLinks 1 1).2.1 demoA (by decide)).1⟩

/-- Claim C6: the Line Formatter's output arises from the stable
ascending-x sort followed by the `lastX` walk with the tab / space gap
rules, bold styling exactly for matching font names, the fixed
`x + 5·len` advance, and a final trim. -/
theorem c6_line_formatter (l : List Token) :
    List.Sorted tokLE (sortByX l) ∧ (sortByX l).Perm l ∧
      formatLineWithSpacing l = jsTrim (formatWalk 0 (sortByX l)) := by
  refine ⟨List.sorted_insertionSort tokLE l, List.perm_insertionSort tokLE l, ?_⟩
  show jsTrim ((sortByX l).foldl fmtStep ([], 0)).1 = jsTrim (formatWalk 0 (sortByX l))
  rw [foldl_fmtStep]
  simp

/-- Claim C9 is false on the code: `lineItems.sort` (line 59) sorts the
line's token array in place, so after formatting the concrete line
`[tokA, tokB]` (x-coordinates 40 and 0, discovery order) its stored
order is no longer the discovery order. -/
theorem c9_counterexample :
    (formatLineWithSpacingFull [tokA, tokB]).2 ≠ [tokA, tokB] := by decide

/-- Claim C9 (amended): formatting reorders the Line's stored token
sequence in place to stable ascending-x order (keeping exactly the
same tokens); the storage order is preserved precisely when the Line
was already x-sorted. -/
theorem c9_format_sorts_in_place (l : List Token) :
    ((formatLineWithSpacingFull l).2).Perm l ∧
      List.Sorted tokLE ((formatLineWithSpacingFull l).2) ∧
      ((formatLineWithSpacingFull l).2 = l ↔ List.Sorted tokLE l) := by
  have h2 : (formatLineWithSpacingFull l).2 = sortByX l := rfl
  rw [h2]
  refine ⟨List.perm_insertionSort tokLE l, List.sorted_insertionSort tokLE l, ?_, ?_⟩
  · intro h
    rw [← h]
    exact List.sorted_insertionSort tokLE l
  · exact fun h => h.insertionSort_eq

/-- Claim C2 is false on the code: the section state is three booleans
(lines 130-132) set by independent `includes` tests (lines 145-147); on
the page `dualHeaderPage`, whose header line reads
"EDUCATION EXPERIENCE", the Education and Experience sections end up
active simultaneously. -/
theorem c2_counterexample :
    (processPageFull dualHeaderPage).1.inEducation = true ∧
      (processPageFull dualHeaderPage).1.inExperience = true := by decide

/-- Claim C2 (amended): the section flags change only when a
section-header Line is recognized; and provided every line's raw text
contains at most one of the keyword substrings
"project" / "experience" / "education", at most one section flag is
active at every point of the classification.  A header containing
several keywords, however, activates several flags at once. -/
theorem c2_section_flags :
    (∀ (st : CState) (i : Int) (l : List Token) (n : Option (List Token)),
      isSectionHeader (rawText l) = false →
        ((classifyStep st i l n).1.inProjects = st.inProjects ∧
          (classifyStep st i l n).1.inExperience = st.inExperience ∧
          (classifyStep st i l n).1.inEducation = st.inEducation)) ∧
      (∀ lines : List (List Token),
        (∀ l ∈ lines, keywordCount (rawText l) ≤ 1) →
        ∀ s ∈ classifyStates CState.init 0 lines, flagCount s ≤ 1) := by
  constructor
  · intro st i l n h
    refine ⟨?_, ?_, ?_⟩ <;> rw [classifyStep_fst] <;> split_ifs <;> simp_all
  · intro lines hl s hs
    exact flagCount_invariant lines CState.init 0 (by decide) hl s hs

theorem c2_witness : flagCount ⟨true, false, false, 1, []⟩ ≤ 1 :=
  c2_section_flags.2 (buildLines projPage.links projPage.items) (by decide) _
    (by decide)

/-- Claim C8: in the Experience section a non-header line is emitted
header-styled with a preceding blank exactly when it has one token
whose font is bold-class and its raw text is under 40 characters;
otherwise it is emitted as its formatted text, and the state is
untouched either way.  Scenario A: the page with lines
["EXPERIENCE"], ["Senior Engineer"] renders as the styled header, a
blank line, and the styled title. -/
theorem c8_experience_titles :
    (∀ (st : CState) (i : Int) (l : List Token) (n : Option (List Token)),
      (rawText l).isEmpty = false → isSectionHeader (rawText l) = false →
      st.inEducation = false → st.inExperience = true →
      ((classifyStep st i l n).2 =
        (if isBold (headFontName l) && l.length == 1 &&
            decide ((rawText l).length < 40) then
          ['\n' :: chalkCyanBoldUnderline (rawText l)]
         else [formatLineWithSpacing l]) ∧
        (classifyStep st i l n).1 = st)) ∧
      renderLines (processPage expPage) =
        [[], chalkYellowBoldUnderline (("EXPERIENCE").toList), [],
          chalkCyanBoldUnderline (("Senior Engineer").toList)] := by
  constructor
  · intro st i l n he hh hedu hexp
    constructor
    · rw [classifyStep_snd]
      rw [if_neg (by simp [he]), if_neg (by simp [hh]), if_neg (by simp [hedu]),
        if_pos hexp]
    · rw [classifyStep_fst]
      rw [if_neg (by simp [he]), if_neg (by simp [hh]), if_neg (by simp [hedu]),
        if_pos hexp]
  · decide

theorem c8_witness :
    (classifyStep expSt0 0 expLine none).2 =
      ['\n' :: chalkCyanBoldUnderline (rawText expLine)] := by
  have h :=
    (c8_experience_titles.1 expSt0 0 expLine none (by decide) (by decide) rfl rfl).1
  rw [h, if_pos (by decide)]

/-- Claim C5: in an Education section non-header lines are buffered and
emitted in pairs (bold title, indented muted subtitle); 2N lines give
exactly N paired emissions; an odd trailing line stays in the buffer,
is never emitted singly, and a subsequent section header clears it
without emitting it; the buffer never holds more than 2 entries. -/
theorem c5_education_buffering :
    (∀ (lines : List (List Token)) (st : CState) (i : Int),
      st.inEducation = true → st.eduBuffer = [] →
      (∀ l ∈ lines, (rawText l).isEmpty = false ∧
        isSectionHeader (rawText l) = false) →
      ((classifyFrom st i lines).2 = eduPairs (lines.map formatLineWithSpacing) ∧
        ((classifyFrom st i lines).2).length = lines.length / 2 ∧
        (classifyFrom st i lines).1 =
          { st with eduBuffer := eduLeftover (lines.map formatLineWithSpacing) } ∧
        ∀ s ∈ classifyStates st i lines, s.eduBuffer.length ≤ 2)) ∧
      (∀ (st : CState) (i : Int) (l : List Token) (n : Option (List Token)),
        (rawText l).isEmpty = false → isSectionHeader (rawText l) = true →
        ((classifyStep st i l n).1.eduBuffer = [] ∧
          (classifyStep st i l n).2 =
            ['\n' :: chalkYellowBoldUnderline (jsToUpper (rawText l))])) := by
  constructor
  · intro lines st i hedu hb hl
    have h := eduRun lines st i hedu (by rw [hb]; simp) hl
    rw [hb] at h
    simp only [List.nil_append] at h
    refine ⟨h.1, ?_, h.2.1, ?_⟩
    · rw [h.1, eduPairs_length, List.length_map]
    · intro s hs
      exact le_trans (h.2.2 s hs) (by omega)
  · intro st i l n he hh
    constructor
    · rw [classifyStep_fst, if_neg (by simp [he]), if_pos hh]
    · rw [classifyStep_snd, if_neg (by simp [he]), if_pos hh]

theorem c5_witness :
    (classifyFrom eduSt0 0 eduLines3).2 =
      eduPairs (eduLines3.map formatLineWithSpacing) :=
  (c5_education_buffering.1 eduLines3 eduSt0 0 rfl rfl (by decide)).1

theorem classifyStates_get?_zero (st : CState) (i : Int)
    (lines : List (List Token)) :
    (classifyStates st i lines).get? 0 = some st := by
  cases lines <;> rfl

theorem classifyStates_get?_succ (lines : List (List Token)) :
    ∀ (st : CState) (i : Int) (k : Nat),
      (classifyStates st i lines).get? (k + 1) =
        ((classifyStates st i lines).get? k).bind (fun s =>
          (lines.get? k).map (fun l =>
            (classifyStep s (i + k) l (lines.get? (k + 1))).1)) := by
  induction lines with
  | nil =>
    intro st i k
    simp [classifyStates]
  | cons l rest ih =>
    intro st i k
    cases k with
    | zero =>
      simp only [classifyStates]
      rw [List.get?_cons_succ, classifyStates_get?_zero, List.get?_cons_zero,
        List.get?_cons_succ, List.get?_zero]
      simp
    | succ k' =>
      simp only [classifyStates]
      rw [List.get?_cons_succ, ih, List.get?_cons_succ, List.get?_cons_succ]
      have harith : ∀ (s : CState) (l' : List Token),
          (classifyStep s (i + 1 + (k' : Int)) l' (rest.get? (k' + 1))).1 =
            (classifyStep s (i + ((k' + 1 : Nat) : Int)) l'
              (rest.get? (k' + 1))).1 := by
        intro s l'
        congr 2
        push_cast
        ring
      simp only [harith]
      rw [List.get?_cons_succ]

theorem classifyStep_lpi (st : CState) (i : Int) (l : List Token)
    (n : Option (List Token)) :
    (classifyStep st i l n).1.lastProjectIndex = st.lastProjectIndex ∨
      ((classifyStep st i l n).1.lastProjectIndex = i ∧
        st.lastProjectIndex < i - 1) := by
  rw [classifyStep_fst]
  split_ifs with h1 h2 h3 h4 h5 h6
  · left; rfl
  · left; rfl
  · left; rfl
  · left; rfl
  · left; rfl
  · right
    refine ⟨rfl, ?_⟩
    simp only [Bool.and_eq_true, decide_eq_true_eq] at h6
    omega
  · left; rfl

/-- Claim C7 is false in its "demoted to generic emission" part: on the
page `projPage` ("PROJECTS", "AAAAAA", "BBBBBB") the second consecutive
title-pattern line "BBBBBB" is not emitted generically (its formatted
text verbatim) but falls into the tech-stack branch of line 198 and is
emitted muted-italic. -/
theorem c7_counterexample :
    (processPage projPage).get? 3 = some (chalkGrayItalic (("BBBBBB").toList)) ∧
      titleAtB (buildLines projPage.links projPage.items) 1 = true ∧
      titleAtB (buildLines projPage.links projPage.items) 2 = false ∧
      formatLineWithSpacing
          [⟨("BBBBBB").toList, ("BBBBBB").toList, 0, 60, ("").toList⟩] =
        ("BBBBBB").toList ∧
      chalkGrayItalic (("BBBBBB").toList) ≠ ("BBBBBB").toList := by decide

/-- Claim C7 (amended): two consecutive Lines are never both classified
as project titles — the guard `i - lastProjectIndex > 1` of line 184
demotes the second, which then falls through to the later branches
(tech-stack, skills, verify or generic), not necessarily to generic
emission. -/
theorem c7_no_consecutive_titles (lines : List (List Token)) (k : Nat) :
    (titleAtB lines k && titleAtB lines (k + 1)) = false := by
  cases hA : titleAtB lines k
  · simp
  · cases hB : titleAtB lines (k + 1)
    · simp
    · exfalso
      unfold titleAtB at hA hB
      rcases hs1 : (classifyStates CState.init 0 lines).get? (k + 1) with _ | s1
      · rw [hs1] at hA
        simp at hA
      · rw [hs1] at hA
        rcases hs2 : (classifyStates CState.init 0 lines).get? (k + 1 + 1)
          with _ | s2
        · rw [hs2] at hB
          simp at hB
        · rw [hs2] at hB
          have e1 : s1.lastProjectIndex = (k : Int) := by simpa using hA
          have e2 : s2.lastProjectIndex = ((k + 1 : Nat) : Int) := by simpa using hB
          have hstep := classifyStates_get?_succ lines CState.init 0 (k + 1)
          rw [hs1, hs2] at hstep
          rcases hl : lines.get? (k + 1) with _ | l'
          · rw [hl] at hstep
            simp at hstep
          · rw [hl] at hstep
            simp only [Option.some_bind, Option.map_some'] at hstep
            have hs2eq :
                s2 = (classifyStep s1 (0 + ((k + 1 : Nat) : Int)) l'
                  (lines.get? (k + 1 + 1))).1 := by
              injection hstep
            have hlpi := classifyStep_lpi s1 (0 + ((k + 1 : Nat) : Int)) l'
              (lines.get? (k + 1 + 1))
            rw [← hs2eq] at hlpi
            rcases hlpi with h | ⟨h, hlt⟩
            · rw [e2, e1] at h
              push_cast at h
              omega
            · rw [e2] at h
              rw [e1] at hlt
              push_cast at h hlt
              omega

theorem dropWhile_head_false {α : Type} {p : α → Bool} :
    ∀ (l : List α) (c : α) (cs : List α), l.dropWhile p = c :: cs → p c = false := by
  intro l
  induction l with
  | nil =>
    intro c cs h
    simp [List.dropWhile] at h
  | cons a t ih =>
    intro c cs h
    by_cases ha : p a = true
    · rw [List.dropWhile_cons, if_pos ha] at h
      exact ih c cs h
    · rw [List.dropWhile_cons, if_neg ha] at h
      obtain ⟨h1, h2⟩ : a = c ∧ t = cs := by
        constructor <;> injection h
      subst h1
      simpa using ha

theorem dropWhile_sfx {α : Type} (p : α → Bool) :
    ∀ l : List α, ∃ t, l = t ++ l.dropWhile p := by
  intro l
  induction l with
  | nil => exact ⟨[], rfl⟩
  | cons a t ih =>
    by_cases ha : p a = true
    · obtain ⟨u, hu⟩ := ih
      rw [List.dropWhile_cons, if_pos ha]
      exact ⟨a :: u, by rw [List.cons_append, ← hu]⟩
    · rw [List.dropWhile_cons, if_neg ha]
      exact ⟨[], rfl⟩

theorem jsTrim_ne_nil_of_head (c : Char) (cs : Str) (hc : jsIsWS c = false) :
    jsTrim (c :: cs) ≠ [] := by
  intro h
  unfold jsTrim at h
  rw [List.dropWhile_cons, if_neg (by simp [hc])] at h
  rw [List.reverse_eq_nil_iff] at h
  have hall := List.dropWhile_eq_nil_iff.mp h
  have hmem : c ∈ (c :: cs).reverse := by simp
  have hcontra := hall c hmem
  rw [hc] at hcontra
  exact absurd hcontra (by simp)

theorem jsTrim_head_not_ws (s : Str) (c : Char) (cs : Str)
    (h : jsTrim s = c :: cs) : jsIsWS c = false := by
  unfold jsTrim at h
  obtain ⟨t, ht⟩ := dropWhile_sfx jsIsWS (s.dropWhile jsIsWS).reverse
  have hw : (s.dropWhile jsIsWS).reverse.dropWhile jsIsWS = (c :: cs).reverse := by
    rw [← h, List.reverse_reverse]
  rw [hw] at ht
  have hu : s.dropWhile jsIsWS = (c :: cs) ++ t.reverse := by
    have hrev := congrArg List.reverse ht
    rw [List.reverse_reverse, List.reverse_append, List.reverse_reverse] at hrev
    exact hrev
  rw [List.cons_append] at hu
  exact dropWhile_head_false s c _ hu

theorem jsTrim_rev_head (s : Str) (d : Char) (ds : Str)
    (h : (jsTrim s).reverse = d :: ds) : jsIsWS d = false := by
  unfold jsTrim at h
  rw [List.reverse_reverse] at h
  exact dropWhile_head_false _ d ds h

theorem jsTrim_idem (s : Str) : jsTrim (jsTrim s) = jsTrim s := by
  cases hr : jsTrim s with
  | nil => rfl
  | cons c cs =>
    have hc := jsTrim_head_not_ws s c cs hr
    show jsTrim (c :: cs) = c :: cs
    unfold jsTrim
    rw [List.dropWhile_cons, if_neg (by simp [hc])]
    cases hrev : (c :: cs).reverse with
    | nil => exact absurd hrev (by simp)
    | cons d ds =>
      have hd : jsIsWS d = false := by
        apply jsTrim_rev_head s d ds
        rw [hr, hrev]
      have hstep : List.dropWhile jsIsWS (d :: ds) = d :: ds := by
        rw [List.dropWhile_cons, if_neg (by simp [hd])]
      rw [hstep, ← hrev, List.reverse_reverse]

theorem mkToken_raw (links : List LinkAnn) (item : RawItem) :
    (mkToken links item).raw = jsTrim item.str := by
  unfold mkToken
  cases findLink links item.transform4 item.transform5 <;> rfl

theorem mkToken_ok (links : List LinkAnn) (item : RawItem)
    (h : (jsTrim item.str).isEmpty = false) :
    (mkToken links item).raw ≠ [] ∧
      jsTrim ((mkToken links item).raw) = (mkToken links item).raw := by
  rw [mkToken_raw]
  constructor
  · intro hnil
    rw [hnil] at h
    simp at h
  · exact jsTrim_idem item.str

theorem linesFlush_ok (lines : List (List Token)) (cur : List Token)
    (hlines : ∀ l ∈ lines, l ≠ [] ∧ ∀ t ∈ l, t.raw ≠ [] ∧ jsTrim t.raw = t.raw)
    (hcur : ∀ t ∈ cur, t.raw ≠ [] ∧ jsTrim t.raw = t.raw) :
    ∀ l ∈ (if cur.isEmpty then lines else lines ++ [cur]),
      l ≠ [] ∧ ∀ t ∈ l, t.raw ≠ [] ∧ jsTrim t.raw = t.raw := by
  intro l hl
  by_cases hc : cur.isEmpty = true
  · rw [if_pos hc] at hl
    exact hlines l hl
  · rw [if_neg hc] at hl
    rcases List.mem_append.mp hl with h | h
    · exact hlines l h
    · rw [List.mem_singleton] at h
      subst h
      refine ⟨?_, hcur⟩
      intro hn
      rw [hn] at hc
      exact hc rfl

theorem buildLinesGo_ok (links : List LinkAnn) :
    ∀ (items : List RawItem) (lines : List (List Token)) (cur : List Token)
      (lastY : Option Int),
      (∀ l ∈ lines, l ≠ [] ∧ ∀ t ∈ l, t.raw ≠ [] ∧ jsTrim t.raw = t.raw) →
      (∀ t ∈ cur, t.raw ≠ [] ∧ jsTrim t.raw = t.raw) →
      ∀ l ∈ buildLinesGo links lines cur lastY items,
        l ≠ [] ∧ ∀ t ∈ l, t.raw ≠ [] ∧ jsTrim t.raw = t.raw := by
  intro items
  induction items with
  | nil =>
    intro lines cur lastY hlines hcur l hl
    simp only [buildLinesGo] at hl
    exact linesFlush_ok lines cur hlines hcur l hl
  | cons item rest ih =>
    intro lines cur lastY hlines hcur l hl
    simp only [buildLinesGo] at hl
    by_cases hs : (jsTrim item.str).isEmpty = true
    · rw [if_pos hs] at hl
      exact ih lines cur lastY hlines hcur l hl
    · rw [if_neg hs] at hl
      have hmk := mkToken_ok links item (by simpa using hs)
      by_cases hn : isNewRow lastY (itemY item) = true
      · rw [if_pos hn] at hl
        refine ih _ _ _ (linesFlush_ok lines cur hlines hcur) ?_ l hl
        intro t ht
        rw [List.mem_singleton] at ht
        subst ht
        exact hmk
      · rw [if_neg hn] at hl
        refine ih _ _ _ hlines ?_ l hl
        intro t ht
        rcases List.mem_append.mp ht with h | h
        · exact hcur t h
        · rw [List.mem_singleton] at h
          subst h
          exact hmk

theorem rawText_ne_nil (l : List Token) (hne : l ≠ [])
    (hok : ∀ t ∈ l, t.raw ≠ [] ∧ jsTrim t.raw = t.raw) :
    (rawText l).isEmpty = false := by
  cases l with
  | nil => exact absurd rfl hne
  | cons t ts =>
    obtain ⟨hraw, htrim⟩ := hok t (List.mem_cons_self _ _)
    rcases hcs : t.raw with _ | ⟨c, cs⟩
    · exact absurd hcs hraw
    · have hcws : jsIsWS c = false := by
        apply jsTrim_head_not_ws t.raw c cs
        rw [htrim, hcs]
      have hj : ∃ z : Str, joinSpace ((t :: ts).map Token.raw) = c :: z := by
        cases ts with
        | nil =>
          refine ⟨cs, ?_⟩
          simp [joinSpace, hcs]
        | cons u us =>
          refine ⟨cs ++ ' ' :: joinSpace ((u :: us).map Token.raw), ?_⟩
          simp [joinSpace, hcs]
      obtain ⟨z, hz⟩ := hj
      unfold rawText
      rw [hz]
      cases hemp : (jsTrim (c :: z)).isEmpty
      · rfl
      · exact absurd (List.isEmpty_iff.mp hemp) (jsTrim_ne_nil_of_head c z hcws)

/-- Claim C10: every Line the grouper emits contains at least one
Token; every Token's raw text is non-empty and already trimmed (empty
fragments were dropped at ingestion); hence every Line's rawText is
non-empty and the skip-on-empty branch of line 141 never fires on
grouper output. -/
theorem c10_lines_nonempty (links : List LinkAnn) (items : List RawItem) :
    ∀ l ∈ buildLines links items,
      l ≠ [] ∧ (∀ t ∈ l, t.raw ≠ [] ∧ jsTrim t.raw = t.raw) ∧
        (rawText l).isEmpty = false := by
  intro l hl
  have h := buildLinesGo_ok links items [] [] none (by simp) (by simp) l hl
  exact ⟨h.1, h.2, rawText_ne_nil l h.1 h.2⟩

theorem c10_witness : (rawText lineW).isEmpty = false :=
  (c10_lines_nonempty [] runsW.flatten lineW (by decide)).2.2

theorem endY_getLast (r : List RawItem) : ∀ (ly : Int) (b : RawItem),
    r.getLast? = some b → endY ly r = itemY b := by
  induction r with
  | nil =>
    intro ly b h
    simp at h
  | cons a t ih =>
    intro ly b h
    cases t with
    | nil =>
      simp at h
      subst h
      rfl
    | cons c t2 =>
      rw [List.getLast?_cons_cons] at h
      show endY (itemY a) (c :: t2) = itemY b
      exact ih (itemY a) b h

theorem go_chain (links : List LinkAnn) :
    ∀ (r : List RawItem) (lines : List (List Token)) (cur : List Token)
      (ly : Int) (rest' : List RawItem),
      chainB ly r = true →
      (∀ it ∈ r, (jsTrim it.str).isEmpty = false) →
      buildLinesGo links lines cur (some ly) (r ++ rest') =
        buildLinesGo links lines (cur ++ r.map (mkToken links))
          (some (endY ly r)) rest' := by
  intro r
  induction r with
  | nil =>
    intro lines cur ly rest' _ _
    simp [endY]
  | cons a t ih =>
    intro lines cur ly rest' hch hstr
    simp only [chainB, Bool.and_eq_true, decide_eq_true_eq] at hch
    simp only [List.cons_append, buildLinesGo]
    rw [if_neg (by simpa using hstr a (List.mem_cons_self _ _))]
    rw [if_neg (by simp only [isNewRow, decide_eq_true_eq]; omega)]
    simp only [List.append_eq]
    rw [ih lines (cur ++ [mkToken links a]) (itemY a) rest' hch.2
      (fun it h => hstr it (List.mem_cons_of_mem _ h))]
    simp [List.append_assoc]
    rfl

theorem go_runs (links : List LinkAnn) :
    ∀ (runs : List (List RawItem)) (acc : List (List Token)) (cur : List Token)
      (ly : Int),
      cur ≠ [] →
      (∀ r ∈ runs, r ≠ []) →
      (∀ r ∈ runs, ∀ it ∈ r, (jsTrim it.str).isEmpty = false) →
      (∀ r ∈ runs, innerChainB r = true) →
      sepFromB ly runs = true →
      buildLinesGo links acc cur (some ly) runs.flatten =
        (acc ++ [cur]) ++ runs.map (fun r => r.map (mkToken links)) := by
  intro runs
  induction runs with
  | nil =>
    intro acc cur ly hcur _ _ _ _
    simp only [List.flatten_nil, buildLinesGo]
    rw [if_neg (by simpa using hcur)]
    simp
  | cons r rest ih =>
    intro acc cur ly hcur hne hstr hchain hsep
    obtain ⟨a, t, rfl⟩ : ∃ a t, r = a :: t := by
      rcases r with _ | ⟨a, t⟩
      · exact absurd rfl (hne _ (List.mem_cons_self _ _))
      · exact ⟨a, t, rfl⟩
    simp only [List.flatten_cons, List.cons_append, buildLinesGo]
    rw [if_neg (by
      simpa using hstr _ (List.mem_cons_self _ _) a (List.mem_cons_self _ _))]
    simp only [sepFromB, List.head?_cons, Bool.and_eq_true] at hsep
    rw [if_pos (show isNewRow (some ly) (itemY a) = true from hsep.1)]
    rw [if_neg (by simpa using hcur)]
    simp only [List.append_eq]
    rw [go_chain links t (acc ++ [cur]) [mkToken links a] (itemY a) rest.flatten
      (by simpa [innerChainB] using hchain _ (List.mem_cons_self _ _))
      (fun it h => hstr _ (List.mem_cons_self _ _) it (List.mem_cons_of_mem _ h))]
    rw [ih (acc ++ [cur]) ([mkToken links a] ++ t.map (mkToken links))
      (endY (itemY a) t) (by simp)
      (fun r h => hne r (List.mem_cons_of_mem _ h))
      (fun r h => hstr r (List.mem_cons_of_mem _ h))
      (fun r h => hchain r (List.mem_cons_of_mem _ h))
      hsep.2]
    simp [List.append_assoc]

theorem runsSep_bridge :
    ∀ (rest : List (List RawItem)) (r : List RawItem) (ly : Int), r ≠ [] →
      (∀ r' ∈ rest, r' ≠ []) →
      runsSepB (r :: rest) = true → sepFromB (endY ly r) rest = true := by
  intro rest
  induction rest with
  | nil =>
    intro r ly _ _ _
    rfl
  | cons r2 rest2 ih =>
    intro r ly hr hne hsep
    simp only [runsSepB, Bool.and_eq_true] at hsep
    obtain ⟨hsep1, hsep2⟩ := hsep
    rcases r with _ | ⟨a, t⟩
    · exact absurd rfl hr
    rcases r2 with _ | ⟨b, t2⟩
    · exact absurd rfl (hne _ (List.mem_cons_self _ _))
    simp only [sepFromB, List.head?_cons, Bool.and_eq_true]
    constructor
    · rcases hg : (a :: t).getLast? with _ | g
      · exact absurd (List.getLast?_eq_none_iff.mp hg) (by simp)
      · rw [hg, List.head?_cons] at hsep1
        have he : endY ly (a :: t) = itemY g := endY_getLast (a :: t) ly g hg
        rw [he]
        exact hsep1
    · exact ih (b :: t2) (endY ly (a :: t)) (by simp)
        (fun r' h => hne r' (List.mem_cons_of_mem _ h)) hsep2

/-- Claim C3: the Line Grouper's single pass closes the buffer exactly
at row boundaries, so when the input items form runs whose internal
consecutive y-differences stay within the 5-unit threshold and whose
boundaries exceed it, the output is exactly one Line per run, each Line
the tokens of its run in order. -/
theorem c3_line_grouper_runs (links : List LinkAnn) (runs : List (List RawItem))
    (hne : ∀ r ∈ runs, r ≠ [])
    (hstr : ∀ r ∈ runs, ∀ it ∈ r, (jsTrim it.str).isEmpty = false)
    (hchain : ∀ r ∈ runs, innerChainB r = true)
    (hsep : runsSepB runs = true) :
    buildLines links runs.flatten =
      runs.map (fun r => r.map (mkToken links)) ∧
      (buildLines links runs.flatten).length = runs.length := by
  have main : buildLines links runs.flatten =
      runs.map (fun r => r.map (mkToken links)) := by
    cases runs with
    | nil => rfl
    | cons r rest =>
      obtain ⟨a, t, rfl⟩ : ∃ a t, r = a :: t := by
        rcases r with _ | ⟨a, t⟩
        · exact absurd rfl (hne _ (List.mem_cons_self _ _))
        · exact ⟨a, t, rfl⟩
      have hstep : buildLines links ((a :: t) :: rest).flatten =
          buildLinesGo links [] [mkToken links a] (some (itemY a))
            (t ++ rest.flatten) := by
        unfold buildLines
        simp only [List.flatten_cons, List.cons_append, buildLinesGo]
        rw [if_neg (by
          simpa using hstr _ (List.mem_cons_self _ _) a (List.mem_cons_self _ _))]
        rw [if_pos (show isNewRow none (itemY a) = true from rfl)]
        simp [List.append_eq]
      rw [hstep]
      rw [go_chain links t [] [mkToken links a] (itemY a) rest.flatten
        (by simpa [innerChainB] using hchain _ (List.mem_cons_self _ _))
        (fun it h => hstr _ (List.mem_cons_self _ _) it (List.mem_cons_of_mem _ h))]
      cases rest with
      | nil =>
        simp only [List.flatten_nil, buildLinesGo]
        rw [if_neg (by simp)]
        simp
      | cons r2 rest2 =>
        rw [go_runs links (r2 :: rest2) []
          ([mkToken links a] ++ t.map (mkToken links)) (endY (itemY a) t)
          (by simp)
          (fun r h => hne r (List.mem_cons_of_mem _ h))
          (fun r h => hstr r (List.mem_cons_of_mem _ h))
          (fun r h => hchain r (List.mem_cons_of_mem _ h))
          (runsSep_bridge (r2 :: rest2) (a :: t) 0 (by simp)
            (fun r' h => hne r' (List.mem_cons_of_mem _ h)) hsep)]
        simp [List.append_assoc]
  refine ⟨main, ?_⟩
  rw [main, List.length_map]

theorem c3_witness :
    buildLines [] runsW.flatten = runsW.map (fun r => r.map (mkToken [])) :=
  (c3_line_grouper_runs [] runsW (by decide) (by decide) (by decide)
    (by decide)).1

end Resume

